import Mathlib

/-!
Shallow embedding of the field resolution and update engine of the
`project-update` GitHub action (source: `src/unnamed/part_001`, functions
`getInputs` and `run`).  The data model follows the GraphQL schema the code
consumes: a project field has an `id`, a `name` and parsed `settings`, which
may carry an iteration configuration, a list of single-select options, or
neither.  Transport (octokit GraphQL calls) is abstracted as a function that
either returns the updated item id or an error payload.
-/

namespace ProjectUpdate

/-- One iteration of an iteration-type field: `{ id, title }`. -/
structure Iteration where
  id : String
  title : String
deriving DecidableEq

/-- One selectable option of a single-select field: `{ id, name }`. -/
structure FieldOption where
  id : String
  name : String
deriving DecidableEq

/-- Parsed `settings` payload of a project field. `iterationSettings` models a
settings object whose `configuration.iterations` is present (the code also
reads `configuration.completed_iterations`); `optionSettings` models a
settings object with an `options` array; `otherSettings` models a truthy
settings object with neither. -/
inductive FieldSettings where
  | iterationSettings (iterations : List Iteration) (completed_iterations : List Iteration)
  | optionSettings (options : List FieldOption)
  | otherSettings
deriving DecidableEq

/-- A project field descriptor as fetched by `projectFieldsGet`: `id`, `name`
and parsed `settings` (`none` models a null/undefined settings payload). -/
structure ProjectField where
  id : String
  name : String
  settings : Option FieldSettings
deriving DecidableEq

/-- JavaScript whitespace accepted by `parseInt` before the number (modelled
for the ASCII whitespace characters). -/
def isJsSpace (c : Char) : Bool :=
  c == ' ' || c == '\t' || c == '\n' || c == '\r' || c == '\x0b' || c == '\x0c'

/-- Value of a decimal digit character, `none` for a non-digit. -/
def decDigitVal (c : Char) : Option Nat :=
  if c.isDigit then some (c.toNat - 48) else none

/-- Value of a hexadecimal digit character, `none` for a non-digit. -/
def hexDigitVal (c : Char) : Option Nat :=
  if c.isDigit then some (c.toNat - 48)
  else if 'a' ≤ c ∧ c ≤ 'f' then some (c.toNat - 87)
  else if 'A' ≤ c ∧ c ≤ 'F' then some (c.toNat - 55)
  else none

/-- Longest prefix of digit values recognised by `digVal`. -/
def takeDigits (digVal : Char → Option Nat) : List Char → List Nat
  | [] => []
  | c :: cs =>
    match digVal c with
    | some d => d :: takeDigits digVal cs
    | none => []

/-- Fold a digit list back into a number in the given base. -/
def digitsToNat (base : Nat) (ds : List Nat) : Nat :=
  ds.foldl (fun acc d => acc * base + d) 0

/-- Model of JavaScript `parseInt(s)` with no radix argument: skip leading
whitespace, read an optional sign, detect a `0x`/`0X` prefix (hexadecimal),
then take the longest valid digit prefix; no digits means `NaN`, modelled as
`none`. -/
def parseIntJS (s : String) : Option Int :=
  let cs0 := s.data.dropWhile isJsSpace
  let signed : Int × List Char :=
    match cs0 with
    | '-' :: rest => (-1, rest)
    | '+' :: rest => (1, rest)
    | _ => (1, cs0)
  let based : Nat × List Char :=
    match signed.2 with
    | '0' :: 'x' :: rest => (16, rest)
    | '0' :: 'X' :: rest => (16, rest)
    | _ => (10, signed.2)
  let digVal := if based.1 == 16 then hexDigitVal else decDigitVal
  let ds := takeDigits digVal based.2
  if ds.isEmpty then none
  else some (signed.1 * (digitsToNat based.1 ds : Int))

/-- Lower-casing of one character in the ASCII range, modelling
`toLowerCase` on the character data the code compares. -/
def lowerChar (c : Char) : Char :=
  if 65 ≤ c.toNat ∧ c.toNat ≤ 90 then Char.ofNat (c.toNat + 32) else c

/-- Model of `s.toLowerCase()` (for the ASCII range). -/
def lowerStr (s : String) : String :=
  ⟨s.data.map lowerChar⟩

/-- Test from the source `value.startsWith('[') && value.endsWith(']')`. -/
def isBracketForm (s : String) : Bool :=
  s.data.head? == some '[' && s.data.getLast? == some ']'

/-- Model of `value.slice(1, -1)`: the text between the outer characters. -/
def bracketInner (s : String) : String :=
  ⟨(s.data.drop 1).dropLast⟩

/-- Iteration selection for an iteration field (`run`, lines 150-159 of
`src/unnamed/part_001`): a bracket-form value is parsed with `parseInt` and,
when it yields an integer, used to index the active `iterations` array (a
negative or out-of-range index reads `undefined`); otherwise the value is
matched case-insensitively against the active iterations' titles, falling
back to the completed iterations' titles. -/
def iterationLookup (its cits : List Iteration) (value : String) : Option Iteration :=
  if isBracketForm value then
    match parseIntJS (bracketInner value) with
    | some idx => if idx < 0 then none else its[idx.toNat]?
    | none => none
  else
    match its.find? (fun i => lowerStr i.title == lowerStr value) with
    | some it => some it
    | none => cits.find? (fun i => lowerStr i.title == lowerStr value)

/-- Option selection for a single-select field (`run`, lines 164-172):
bracket-form values index the `options` array, other values are matched
case-insensitively against the options' names. -/
def optionLookup (opts : List FieldOption) (value : String) : Option FieldOption :=
  if isBracketForm value then
    match parseIntJS (bracketInner value) with
    | some idx => if idx < 0 then none else opts[idx.toNat]?
    | none => none
  else
    opts.find? (fun o => lowerStr o.name == lowerStr value)

/-- The id produced by value resolution, `none` when no iteration/option was
selected (and always `none` for a field without iteration or option
settings). -/
def resolveId (f : ProjectField) (value : String) : Option String :=
  match f.settings with
  | some (.iterationSettings its cits) => (iterationLookup its cits value).map Iteration.id
  | some (.optionSettings opts) => (optionLookup opts value).map FieldOption.id
  | some .otherSettings => none
  | none => none

/-- The `_value` actually passed to the update mutation: the resolved id when
resolution found one, otherwise the raw value unchanged (`run`, lines
142-177). -/
def effectiveValue (f : ProjectField) (value : String) : String :=
  match resolveId f value with
  | some i => i
  | none => value

/-- Field matcher (`run`, line 143): `projectFields.find((field) => name ===
field.name)` — exact string equality on the name, first match wins. -/
def findField (fields : List ProjectField) (name : String) : Option ProjectField :=
  fields.find? (fun f => name == f.name)

/-- Per-pair outcome of the update loop, as reported by its log lines. -/
inductive UpdateOutcome where
  | fieldNotFound (name : String)
  | updated (name : String) (fieldId : String) (value : String) (resultId : String)
  | updateFailed (name : String) (value : String) (error : String)
deriving DecidableEq

/-- One trip of the update loop body (`run`, lines 141-184) for the pair
`(name, value)`: a missing field logs a failure and continues; otherwise the
value is resolved and the mutation is invoked with the effective value, a
thrown transport error being caught and logged.  The transport is abstracted
as `upd : fieldId → value → Except error resultId`. -/
def processPair (fields : List ProjectField) (upd : String → String → Except String String)
    (p : String × String) : UpdateOutcome :=
  match findField fields p.1 with
  | none => .fieldNotFound p.1
  | some f =>
    match upd f.id (effectiveValue f p.2) with
    | .ok rid => .updated p.1 f.id (effectiveValue f p.2) rid
    | .error e => .updateFailed p.1 (effectiveValue f p.2) e

/-- The sequential update loop over all pairs (`run`, lines 141-184): every
pair is processed in turn and contributes exactly one outcome. -/
def runUpdates (fields : List ProjectField) (upd : String → String → Except String String) :
    List (String × String) → List UpdateOutcome
  | [] => []
  | p :: rest => processPair fields upd p :: runUpdates fields upd rest

/-- The sequence of `(fieldId, value)` arguments passed to
`projectFieldUpdate` over a run of the loop: one mutation per pair whose
field was found, carrying the effective value. -/
def mutationsSent (fields : List ProjectField) (pairs : List (String × String)) :
    List (String × String) :=
  pairs.filterMap (fun p => (findField fields p.1).map (fun f => (f.id, effectiveValue f p.2)))

/-- Insert-or-overwrite on an association list, modelling the JavaScript
assignment `obj[f] = v`: an existing key keeps its position and gets the new
value, a new key is appended. -/
def upsert (l : List (String × String)) (k v : String) : List (String × String) :=
  match l with
  | [] => [(k, v)]
  | (k0, v0) :: rest => if k0 = k then (k0, v) :: rest else (k0, v0) :: upsert rest k v

/-- The accumulator pass of `getInputs` (lines 36-41 of
`src/unnamed/part_001`): walking the split field names with their position
`i`, the pair is recorded only when `fieldsValueArr[i]` is truthy, i.e. the
value at the same position exists and is a non-empty string.  The JavaScript
object is modelled as an insertion-ordered association list; no theorem below
depends on the entry order, which is the one aspect where JavaScript objects
can differ (integer-like keys enumerate first). -/
def buildFieldsAux (values : List String) : Nat → List (String × String) → List String →
    List (String × String)
  | _, acc, [] => acc
  | i, acc, f :: rest =>
    buildFieldsAux values (i + 1)
      (match values[i]? with
       | some v => if v = "" then acc else upsert acc f v
       | none => acc) rest

/-- Pairing of the split name and value lists, as built by the `reduce` in
`getInputs`. -/
def buildFields (names values : List String) : List (String × String) :=
  buildFieldsAux values 0 [] names

/-- Comma grouping of a character list: the groups between comma characters,
in order (an empty list yields one empty group, like `"".split(',')`). -/
def splitOnComma : List Char → List (List Char)
  | [] => [[]]
  | c :: rest =>
    match splitOnComma rest with
    | [] => [[]]
    | g :: gs => if c = ',' then [] :: g :: gs else (c :: g) :: gs

/-- Model of JavaScript `s.split(',')`. -/
def splitCSV (s : String) : List String :=
  (splitOnComma s.data).map (fun cs => ⟨cs⟩)

/-- The `fields` record produced by `getInputs` from the raw comma-separated
inputs (lines 32-42): both inputs are split on commas, and an empty
`field-names` input yields no update request at all. -/
def parseFieldInputs (fieldNames fieldValues : String) : List (String × String) :=
  if fieldNames = "" then []
  else buildFields (splitCSV fieldNames) (splitCSV fieldValues)

/-- Lookup in the association list modelling the JavaScript object. -/
def lookupVal : List (String × String) → String → Option String
  | [], _ => none
  | (k, v) :: rest, n => if k = n then some v else lookupVal rest n

/-- Keys of the association list, in entry order. -/
def keys (l : List (String × String)) : List String :=
  l.map Prod.fst

/-- First-some choice on options, used to state the collapse behaviour. -/
def orO (a b : Option String) : Option String :=
  match a with
  | some v => some v
  | none => b

/-- The value at position `i` of the values list when it exists and is
non-empty (JavaScript truthiness of `fieldsValueArr[i]`), else `none`. -/
def truthyAt (values : List String) (i : Nat) : Option String :=
  match values[i]? with
  | some v => if v = "" then none else some v
  | none => none

/-- The value attached to the last occurrence of the name `n` in `names`
(positions counted from `i`) whose positional value exists and is
non-empty. -/
def lastTruthyVal (values : List String) : Nat → String → List String → Option String
  | _, _, [] => none
  | i, n, f :: rest =>
    orO (lastTruthyVal values (i + 1) n rest)
      (if f = n then truthyAt values i else none)

/-- Concrete single-select field used to exercise the resolver. -/
def statusField : ProjectField :=
  ⟨"F1", "Status", some (.optionSettings [⟨"O1", "Todo"⟩, ⟨"O2", "Done"⟩])⟩

/-- Concrete iteration field with one completed iteration. -/
def iterField : ProjectField :=
  ⟨"F2", "Iteration",
    some (.iterationSettings [⟨"I1", "Sprint 1"⟩, ⟨"I2", "Sprint 2"⟩] [⟨"I0", "Sprint 0"⟩])⟩

/-- Concrete plain text field (null settings). -/
def textField : ProjectField :=
  ⟨"F3", "Notes", none⟩

/-- Concrete single-select field one of whose option names is itself
bracket-shaped. -/
def bracketOptionField : ProjectField :=
  ⟨"F4", "Weird", some (.optionSettings [⟨"O9", "[x]"⟩])⟩

theorem orO_none (a : Option String) : orO a none = a := by
  cases a <;> rfl

theorem orO_assoc (a b c : Option String) : orO (orO a b) c = orO a (orO b c) := by
  cases a <;> rfl

theorem lookupVal_upsert (l : List (String × String)) (k v n : String) :
    lookupVal (upsert l k v) n = if k = n then some v else lookupVal l n := by
  induction l with
  | nil =>
    simp [upsert, lookupVal]
  | cons p rest ih =>
    obtain ⟨k0, v0⟩ := p
    by_cases hk : k0 = k
    · subst hk
      by_cases hn : k0 = n <;> simp [upsert, lookupVal, hn]
    · by_cases hn : k0 = n
      · subst hn
        have hkn : ¬ k = k0 := fun h => hk h.symm
        simp [upsert, hk, lookupVal, hkn]
      · simp [upsert, hk, lookupVal, hn, ih]

theorem keys_cons (p : String × String) (l : List (String × String)) :
    keys (p :: l) = p.1 :: keys l := rfl

theorem keys_upsert (l : List (String × String)) (k v : String) :
    keys (upsert l k v) = if k ∈ keys l then keys l else keys l ++ [k] := by
  induction l with
  | nil => simp [upsert, keys]
  | cons p rest ih =>
    obtain ⟨k0, v0⟩ := p
    by_cases hk : k0 = k
    · subst hk
      rw [show upsert ((k0, v0) :: rest) k0 v = (k0, v) :: rest from by simp [upsert]]
      rw [keys_cons, keys_cons]
      dsimp only
      rw [if_pos (List.mem_cons_self k0 (keys rest))]
    · rw [show upsert ((k0, v0) :: rest) k v = (k0, v0) :: upsert rest k v from by
        simp [upsert, hk]]
      rw [keys_cons, ih, keys_cons]
      dsimp only
      have hne : ¬ k = k0 := fun h => hk h.symm
      by_cases hm : k ∈ keys rest
      · rw [if_pos hm, if_pos (List.mem_cons_of_mem k0 hm)]
      · rw [if_neg hm, if_neg (fun hc => by
          rcases List.mem_cons.mp hc with h | h
          · exact hne h
          · exact hm h)]
        rfl

theorem keys_nodup_upsert {l : List (String × String)} (h : (keys l).Nodup)
    (k v : String) : (keys (upsert l k v)).Nodup := by
  rw [keys_upsert]
  by_cases hm : k ∈ keys l
  · rwa [if_pos hm]
  · rw [if_neg hm]
    refine h.append (List.nodup_singleton k) ?_
    intro x hx hx'
    rw [List.mem_singleton] at hx'
    subst hx'
    exact hm hx

theorem buildFieldsAux_lookup (values : List String) (n : String) :
    ∀ (names : List String) (i : Nat) (acc : List (String × String)),
    lookupVal (buildFieldsAux values i acc names) n =
      orO (lastTruthyVal values i n names) (lookupVal acc n) := by
  intro names
  induction names with
  | nil =>
    intro i acc
    simp [buildFieldsAux, lastTruthyVal, orO]
  | cons f rest ih =>
    intro i acc
    rw [show buildFieldsAux values i acc (f :: rest) =
      buildFieldsAux values (i + 1)
        (match values[i]? with
         | some v => if v = "" then acc else upsert acc f v
         | none => acc) rest from rfl]
    rw [ih]
    rw [show lastTruthyVal values i n (f :: rest) =
      orO (lastTruthyVal values (i + 1) n rest)
        (if f = n then truthyAt values i else none) from rfl]
    rw [orO_assoc]
    have hacc : lookupVal
        (match values[i]? with
         | some v => if v = "" then acc else upsert acc f v
         | none => acc) n =
        orO (if f = n then truthyAt values i else none) (lookupVal acc n) := by
      cases hv : values[i]? with
      | none => simp [truthyAt, hv, orO]
      | some v =>
        by_cases hve : v = ""
        · subst hve
          simp [truthyAt, hv, orO]
        · by_cases hfn : f = n
          · subst hfn
            simp [hv, hve, lookupVal_upsert, truthyAt, orO]
          · simp [hv, hve, lookupVal_upsert, hfn, truthyAt, orO]
    rw [hacc]

theorem buildFields_lookup (names values : List String) (n : String) :
    lookupVal (buildFields names values) n = lastTruthyVal values 0 n names := by
  rw [buildFields, buildFieldsAux_lookup]
  simp [lookupVal, orO_none]

theorem buildFieldsAux_nodup (values : List String) :
    ∀ (names : List String) (i : Nat) (acc : List (String × String)),
    (keys acc).Nodup → (keys (buildFieldsAux values i acc names)).Nodup := by
  intro names
  induction names with
  | nil =>
    intro i acc h
    simpa [buildFieldsAux] using h
  | cons f rest ih =>
    intro i acc h
    rw [show buildFieldsAux values i acc (f :: rest) =
      buildFieldsAux values (i + 1)
        (match values[i]? with
         | some v => if v = "" then acc else upsert acc f v
         | none => acc) rest from rfl]
    refine ih _ _ ?_
    cases hv : values[i]? with
    | none => simpa [hv] using h
    | some v =>
      by_cases hve : v = ""
      · simpa [hv, hve] using h
      · simpa [hv, hve] using keys_nodup_upsert h f v

theorem lastTruthyVal_not_mem (values : List String) (n : String) :
    ∀ (names : List String) (i : Nat), n ∉ names →
    lastTruthyVal values i n names = none := by
  intro names
  induction names with
  | nil => intro i _; rfl
  | cons f rest ih =>
    intro i h
    have hf : ¬ f = n := fun hc => h (hc ▸ List.mem_cons_self f rest)
    have hr : n ∉ rest := fun hc => h (List.mem_cons_of_mem f hc)
    rw [show lastTruthyVal values i n (f :: rest) =
      orO (lastTruthyVal values (i + 1) n rest)
        (if f = n then truthyAt values i else none) from rfl]
    rw [ih _ hr]
    simp [orO, hf]

theorem lastTruthyVal_nodup (values : List String) :
    ∀ (names : List String), names.Nodup → ∀ (j : Nat) (hj : j < names.length) (i : Nat),
    lastTruthyVal values i (names.get ⟨j, hj⟩) names = truthyAt values (i + j) := by
  intro names
  induction names with
  | nil =>
    intro _ j hj
    exact absurd hj (by simp)
  | cons f rest ih =>
    intro hnd j hj i
    obtain ⟨hf, hrest⟩ := List.nodup_cons.mp hnd
    cases j with
    | zero =>
      rw [show (f :: rest).get ⟨0, hj⟩ = f from rfl]
      rw [show lastTruthyVal values i f (f :: rest) =
        orO (lastTruthyVal values (i + 1) f rest)
          (if f = f then truthyAt values i else none) from rfl]
      rw [lastTruthyVal_not_mem values f rest (i + 1) hf]
      simp [orO]
    | succ k =>
      have hk : k < rest.length := by simpa using hj
      have hm : rest.get ⟨k, hk⟩ ∈ rest := List.get_mem rest k hk
      have hfn : ¬ f = rest.get ⟨k, hk⟩ := fun hc => hf (hc ▸ hm)
      rw [show (f :: rest).get ⟨k + 1, hj⟩ = rest.get ⟨k, hk⟩ from rfl]
      rw [show lastTruthyVal values i (rest.get ⟨k, hk⟩) (f :: rest) =
        orO (lastTruthyVal values (i + 1) (rest.get ⟨k, hk⟩) rest)
          (if f = rest.get ⟨k, hk⟩ then truthyAt values i else none) from rfl]
      rw [ih hrest k hk (i + 1)]
      rw [show i + 1 + k = i + (k + 1) from by omega]
      rw [if_neg hfn, orO_none]

theorem find?_mem_of_exists {α : Type} (p : α → Bool) (l : List α)
    (h : ∃ a ∈ l, p a = true) :
    ∃ b ∈ l, l.find? p = some b ∧ p b = true := by
  induction l with
  | nil => simp at h
  | cons x xs ih =>
    by_cases hx : p x = true
    · exact ⟨x, List.mem_cons_self x xs, List.find?_cons_of_pos xs hx, hx⟩
    · obtain ⟨a, ha, hpa⟩ := h
      rcases List.mem_cons.mp ha with rfl | ha2
      · exact absurd hpa hx
      · obtain ⟨b, hb, hfind, hpb⟩ := ih ⟨a, ha2, hpa⟩
        refine ⟨b, List.mem_cons_of_mem x hb, ?_, hpb⟩
        rw [List.find?_cons_of_neg xs (by simpa using hx), hfind]

/-- C1 (amended): the field matcher selects a descriptor by exact,
case-sensitive string equality of the requested name with the descriptor's
name, first match in fetch order winning, and returns a not-found result
exactly when no descriptor's name is equal to the requested name. -/
theorem c1_field_matcher (fields : List ProjectField) (n : String) :
    (findField fields n = none ↔ ∀ f ∈ fields, f.name ≠ n) ∧
    (∀ f, findField fields n = some f →
      f.name = n ∧ ∃ l1 l2, fields = l1 ++ f :: l2 ∧ ∀ g ∈ l1, g.name ≠ n) := by
  constructor
  · rw [findField, List.find?_eq_none]
    constructor
    · intro h f hf hc
      exact h f hf (by simp [hc])
    · intro h f hf
      simp only [beq_iff_eq]
      exact fun hc => h f hf hc.symm
  · intro f
    induction fields with
    | nil =>
      intro h
      simp [findField] at h
    | cons g rest ih =>
      intro h
      by_cases hg : (n == g.name) = true
      · rw [findField, List.find?_cons_of_pos rest hg] at h
        have hgf : g = f := Option.some.inj h
        subst hgf
        exact ⟨(beq_iff_eq.mp hg).symm, [], rest, rfl, by simp⟩
      · rw [findField, List.find?_cons_of_neg rest hg] at h
        obtain ⟨hname, l1, l2, heq, hall⟩ := ih (by rw [findField]; exact h)
        refine ⟨hname, g :: l1, l2, by rw [heq]; rfl, ?_⟩
        intro x hx
        rcases List.mem_cons.mp hx with rfl | hx2
        · intro hc
          exact hg (by simp [hc])
        · exact hall x hx2

/-- C1 counterexample: a requested name that differs from the schema name
only in letter case is not matched — the matcher returns a not-found result,
refuting case-insensitive matching. -/
theorem c1_case_counterexample :
    lowerStr "status" = lowerStr "Status" ∧
    findField [statusField] "status" = none := by decide

/-- C2 counterexample: for an iteration field whose resolution misses (no
bracket index, no title match in either list), the field update is not
skipped — the mutation is sent, with the raw string as its value. -/
theorem c2_skip_counterexample :
    resolveId iterField "zzz" = none ∧
    mutationsSent [iterField] [("Iteration", "zzz")] = [("F2", "zzz")] := by decide

/-- C2 (amended): for an iteration field whose value resolution fails, the
update is attempted anyway, and the raw string is exactly what is sent as the
value of the mutation. -/
theorem c2_raw_value_sent (fields : List ProjectField) (f : ProjectField)
    (its cits : List Iteration) (n v : String)
    (hf : findField fields n = some f)
    (hs : f.settings = some (.iterationSettings its cits))
    (hr : resolveId f v = none) :
    mutationsSent fields [(n, v)] = [(f.id, v)] := by
  simp [mutationsSent, hf, effectiveValue, hr]

/-- Witness for C2 at a concrete input: an iteration field named
`Iteration`, raw value `zzz` matching nothing; the mutation carries the raw
string. -/
theorem c2_raw_value_sent_witness :
    findField [iterField] "Iteration" = some iterField ∧
    iterField.settings = some (FieldSettings.iterationSettings
      [⟨"I1", "Sprint 1"⟩, ⟨"I2", "Sprint 2"⟩] [⟨"I0", "Sprint 0"⟩]) ∧
    resolveId iterField "zzz" = none ∧
    mutationsSent [iterField] [("Iteration", "zzz")] = [(iterField.id, "zzz")] :=
  ⟨by decide, rfl, by decide,
    c2_raw_value_sent [iterField] iterField
      [⟨"I1", "Sprint 1"⟩, ⟨"I2", "Sprint 2"⟩] [⟨"I0", "Sprint 0"⟩]
      "Iteration" "zzz" (by decide) rfl (by decide)⟩

/-- C3: the update loop produces exactly one outcome per input pair, in the
input pairs' order, and the outcome at each position is a function of that
pair alone — so a field-not-found or update-failed outcome for one pair never
prevents processing of the subsequent pairs. -/
theorem c3_batch_outcomes (fields : List ProjectField)
    (upd : String → String → Except String String) (pairs : List (String × String)) :
    (runUpdates fields upd pairs).length = pairs.length ∧
    ∀ i : Nat, (runUpdates fields upd pairs)[i]? =
      (pairs[i]?).map (processPair fields upd) := by
  constructor
  · induction pairs with
    | nil => rfl
    | cons p rest ih => simpa [runUpdates] using ih
  · intro i
    induction pairs generalizing i with
    | nil => simp [runUpdates]
    | cons p rest ih =>
      cases i with
      | zero => simp [runUpdates]
      | succ j => simpa [runUpdates] using ih j

/-- C4: for an option or iteration field and a bracket-form raw value whose
inner text parses to the non-negative integer `i`, resolution yields the id
of the `i`-th element of the field's primary list — active iterations only,
never the completed list, options for an option field — and misses when `i`
is out of range (the indexed read is `none`). -/
theorem c4_bracket_index (f : ProjectField) (its cits : List Iteration)
    (opts : List FieldOption) (i : Nat) (v : String)
    (hb : isBracketForm v = true) (hp : parseIntJS (bracketInner v) = some (i : Int)) :
    (f.settings = some (.iterationSettings its cits) →
      resolveId f v = (its[i]?).map Iteration.id) ∧
    (f.settings = some (.optionSettings opts) →
      resolveId f v = (opts[i]?).map FieldOption.id) := by
  have hnn : ¬ ((i : Int) < 0) := by omega
  constructor
  · intro hs
    simp [resolveId, hs, iterationLookup, hb, hp, hnn, Int.toNat_natCast]
  · intro hs
    simp [resolveId, hs, optionLookup, hb, hp, hnn, Int.toNat_natCast]

/-- Witness for C4 at concrete inputs: `[1]` selects the second active
iteration of the iteration fixture, and `[2]` is out of range for the
two-option fixture, so resolution misses. -/
theorem c4_bracket_index_witness :
    isBracketForm "[1]" = true ∧
    parseIntJS (bracketInner "[1]") = some 1 ∧
    resolveId iterField "[1]" = some "I2" ∧
    resolveId statusField "[2]" = none :=
  ⟨by decide, by decide,
    ((c4_bracket_index iterField [⟨"I1", "Sprint 1"⟩, ⟨"I2", "Sprint 2"⟩]
      [⟨"I0", "Sprint 0"⟩] [] 1 "[1]" (by decide) (by decide)).1 rfl).trans (by decide),
    ((c4_bracket_index statusField [] [] [⟨"O1", "Todo"⟩, ⟨"O2", "Done"⟩] 2 "[2]"
      (by decide) (by decide)).2 rfl).trans (by decide)⟩

/-- C5: for an option field and a non-bracket raw value, resolution matches
the value case-insensitively against the options' names and yields a matching
option's id; when no option name matches, resolution misses. -/
theorem c5_option_name (f : ProjectField) (opts : List FieldOption) (v : String)
    (hs : f.settings = some (.optionSettings opts)) (hb : isBracketForm v = false) :
    ((∃ o ∈ opts, lowerStr o.name = lowerStr v) →
      ∃ o ∈ opts, lowerStr o.name = lowerStr v ∧ resolveId f v = some o.id) ∧
    ((∀ o ∈ opts, lowerStr o.name ≠ lowerStr v) → resolveId f v = none) := by
  have hres : resolveId f v =
      (opts.find? (fun o => lowerStr o.name == lowerStr v)).map FieldOption.id := by
    simp [resolveId, hs, optionLookup, hb]
  constructor
  · rintro ⟨o, ho, hno⟩
    obtain ⟨b, hbm, hfind, hpb⟩ := find?_mem_of_exists
      (fun o => lowerStr o.name == lowerStr v) opts ⟨o, ho, by simp [hno]⟩
    refine ⟨b, hbm, by simpa using hpb, ?_⟩
    rw [hres, hfind]
    rfl
  · intro h
    have hnone : opts.find? (fun o => lowerStr o.name == lowerStr v) = none :=
      List.find?_eq_none.mpr (fun o ho => by simpa using h o ho)
    rw [hres, hnone]
    rfl

/-- Witness for C5 at a concrete input: raw value `TODO` matches the option
named `Todo` of the option fixture case-insensitively. -/
theorem c5_option_name_witness :
    statusField.settings = some (FieldSettings.optionSettings
      [⟨"O1", "Todo"⟩, ⟨"O2", "Done"⟩]) ∧
    isBracketForm "TODO" = false ∧
    (∃ o ∈ ([⟨"O1", "Todo"⟩, ⟨"O2", "Done"⟩] : List FieldOption),
      lowerStr o.name = lowerStr "TODO" ∧ resolveId statusField "TODO" = some o.id) :=
  ⟨rfl, by decide,
    (c5_option_name statusField [⟨"O1", "Todo"⟩, ⟨"O2", "Done"⟩] "TODO" rfl (by decide)).1
      ⟨⟨"O1", "Todo"⟩, by decide, by decide⟩⟩

/-- C6: for an iteration field and a non-bracket raw value, the active list
is tried first (a match there resolves regardless of the completed list), and
a value unmatched among the active titles but matched case-insensitively
among the completed titles still resolves, to that completed iteration's
id. -/
theorem c6_completed_fallback (f : ProjectField) (its cits : List Iteration) (v : String)
    (hs : f.settings = some (.iterationSettings its cits)) (hb : isBracketForm v = false) :
    ((∀ i ∈ its, lowerStr i.title ≠ lowerStr v) → ∀ it,
      cits.find? (fun i => lowerStr i.title == lowerStr v) = some it →
      resolveId f v = some it.id) ∧
    (∀ it, its.find? (fun i => lowerStr i.title == lowerStr v) = some it →
      resolveId f v = some it.id) := by
  have hres : resolveId f v = (iterationLookup its cits v).map Iteration.id := by
    simp [resolveId, hs]
  constructor
  · intro h it hfind
    have hnone : its.find? (fun i => lowerStr i.title == lowerStr v) = none :=
      List.find?_eq_none.mpr (fun i hi => by simpa using h i hi)
    rw [hres, show iterationLookup its cits v = some it from by
      simp [iterationLookup, hb, hnone, hfind]]
    rfl
  · intro it hfind
    rw [hres, show iterationLookup its cits v = some it from by
      simp [iterationLookup, hb, hfind]]
    rfl

/-- Witness for C6 at a concrete input: `SPRINT 0` matches no active title of
the iteration fixture but matches the completed iteration `Sprint 0`
case-insensitively, and resolves to its id. -/
theorem c6_completed_fallback_witness :
    iterField.settings = some (FieldSettings.iterationSettings
      [⟨"I1", "Sprint 1"⟩, ⟨"I2", "Sprint 2"⟩] [⟨"I0", "Sprint 0"⟩]) ∧
    isBracketForm "SPRINT 0" = false ∧
    resolveId iterField "SPRINT 0" = some "I0" :=
  ⟨rfl, by decide,
    (c6_completed_fallback iterField [⟨"I1", "Sprint 1"⟩, ⟨"I2", "Sprint 2"⟩]
      [⟨"I0", "Sprint 0"⟩] "SPRINT 0" rfl (by decide)).1
      (by decide) ⟨"I0", "Sprint 0"⟩ (by decide)⟩

/-- C7: for a field with neither iteration nor option settings, resolution is
the identity — the effective value sent is the raw value unchanged and no id
is produced (no numeric or date validation exists anywhere in the
resolver). -/
theorem c7_scalar_identity (f : ProjectField) (v : String)
    (hs : f.settings = none ∨ f.settings = some .otherSettings) :
    effectiveValue f v = v ∧ resolveId f v = none := by
  rcases hs with h | h <;> simp [effectiveValue, resolveId, h]

/-- Witness for C7 at a concrete input: the plain text fixture passes a date
string through unchanged. -/
theorem c7_scalar_identity_witness :
    (textField.settings = none ∨ textField.settings = some FieldSettings.otherSettings) ∧
    effectiveValue textField "2023-10-10" = "2023-10-10" ∧
    resolveId textField "2023-10-10" = none := by
  refine ⟨Or.inl rfl, ?_, ?_⟩
  · exact (c7_scalar_identity textField "2023-10-10" (Or.inl rfl)).1
  · exact (c7_scalar_identity textField "2023-10-10" (Or.inl rfl)).2

/-- C9: for an option or iteration field, a raw value that starts with `[`
and ends with `]` is treated exclusively as an index: when the inner text
does not parse as an integer, resolution yields no id — name and title
matching is never attempted, whatever the lists contain — and the raw bracket
string remains the effective value. -/
theorem c9_bracket_exclusive (f : ProjectField) (its cits : List Iteration)
    (opts : List FieldOption) (v : String)
    (hb : isBracketForm v = true) (hp : parseIntJS (bracketInner v) = none)
    (hs : f.settings = some (.iterationSettings its cits) ∨
      f.settings = some (.optionSettings opts)) :
    resolveId f v = none ∧ effectiveValue f v = v := by
  have h1 : resolveId f v = none := by
    rcases hs with h | h <;> simp [resolveId, h, iterationLookup, optionLookup, hb, hp]
  exact ⟨h1, by simp [effectiveValue, h1]⟩

/-- Witness for C9 at a concrete input: the fixture has an option literally
named `[x]`, and the raw value `[x]` is bracket-form with unparsable inner
text — yet resolution misses, showing name matching is never attempted. -/
theorem c9_bracket_exclusive_witness :
    isBracketForm "[x]" = true ∧
    parseIntJS (bracketInner "[x]") = none ∧
    resolveId bracketOptionField "[x]" = none ∧
    effectiveValue bracketOptionField "[x]" = "[x]" := by
  refine ⟨by decide, by decide, ?_, ?_⟩
  · exact (c9_bracket_exclusive bracketOptionField [] [] [⟨"O9", "[x]"⟩] "[x]"
      (by decide) (by decide) (Or.inr rfl)).1
  · exact (c9_bracket_exclusive bracketOptionField [] [] [⟨"O9", "[x]"⟩] "[x]"
      (by decide) (by decide) (Or.inr rfl)).2

/-- C8 counterexample: with names `a,a` and values `x,`, the single update
for `a` uses `x`, the value of the first occurrence, not the (empty) value
paired with the last occurrence; and with names `a,a,b` and values `x,y,`,
only one pair survives although two distinct names occur. -/
theorem c8_last_occurrence_counterexample :
    parseFieldInputs "a,a" "x," = [("a", "x")] ∧
    parseFieldInputs "a,a,b" "x,y," = [("a", "y")] := by decide

/-- C8 (amended): duplicate names collapse before reaching the update loop —
the built record has no duplicate keys, and the value recorded for a name is
the one paired with its last occurrence whose positional value exists and is
non-empty (a name with no such occurrence is dropped entirely). -/
theorem c8_collapse (names values : List String) :
    (keys (buildFields names values)).Nodup ∧
    ∀ n, lookupVal (buildFields names values) n = lastTruthyVal values 0 n names :=
  ⟨buildFieldsAux_nodup values names 0 [] (by simp [keys]),
    fun n => buildFields_lookup names values n⟩

/-- C10 counterexample: at position 0 of names `a,a` with values `x,y`, the
value `x` exists and is non-empty, yet the pair `(a, x)` is not included in
the update request — the later duplicate overwrote it. -/
theorem c10_duplicate_counterexample :
    ("a", "x") ∉ parseFieldInputs "a,a" "x,y" ∧
    splitCSV "x,y" = ["x", "y"] ∧ ("x" : String) ≠ "" := by decide

/-- C10 (amended): when the comma-separated names are pairwise distinct, the
name at position `j` is included in the update request exactly when the
`j`-th value exists and is a non-empty string, and then with that value — in
particular a position whose value is the empty string is dropped, not only
positions past the end of the values list. -/
theorem c10_inclusion (names values : List String) (h : names.Nodup)
    (j : Nat) (hj : j < names.length) :
    lookupVal (buildFields names values) (names.get ⟨j, hj⟩) = truthyAt values j := by
  rw [buildFields_lookup]
  have h2 := lastTruthyVal_nodup values names h j hj 0
  simpa using h2

/-- Witness for C10 at a concrete input: names `a, b` with values `x, ""` —
position 1 has an empty value, so `b` is dropped from the request. -/
theorem c10_inclusion_witness :
    (["a", "b"] : List String).Nodup ∧
    1 < (["a", "b"] : List String).length ∧
    lookupVal (buildFields ["a", "b"] ["x", ""])
      ((["a", "b"] : List String).get ⟨1, by decide⟩) = truthyAt ["x", ""] 1 :=
  ⟨by decide, by decide, c10_inclusion ["a", "b"] ["x", ""] (by decide) 1 (by decide)⟩

end ProjectUpdate
